import Mathlib

/-!
# ChainLogistics provenance ledger — shallow embedding

A Lean 4 embedding of the Soroban smart contract in
`smart-contract/contracts/src/` (contract.rs, storage.rs, types.rs,
validation.rs, error.rs), with theorems settling the specification claims.

Representation choices:
* `soroban_sdk::String` and `Symbol` are Lean `String`s (`len` = `String.length`).
* `Address` and `BytesN<32>` are opaque and modelled as `Nat`.
* `Map<Symbol, String>` is an association list `List (String × String)`
  (`len` = list length; value iteration visits every entry).
* `u64` values are `Nat`s; where the Rust code casts to `u32`
  (`offset as u32` in contract.rs) the model takes `% 2^32` explicitly.
  Arithmetic that would overflow `u64` panics (Soroban contracts are built
  with `overflow-checks = true`), aborting the invocation with no state
  change; the model returns `none` for such a trap.
* The contract's persistent storage is the `CState` structure; a Soroban
  invocation either fully commits or fully discards, so mutating
  entrypoints return `Except Error (α × CState)` (possibly under `Option`
  for a trap) and an erroring invocation leaves the state as it was.
* `require_auth()` (caller authentication) is an external collaborator and
  is a no-op in the model.
-/

namespace ChainLogistics

/-- error.rs: the contract's error enum. -/
inductive Error where
  | ProductAlreadyExists
  | ProductNotFound
  | Unauthorized
  | InvalidInput
  | EventNotFound
  | InvalidProductId
  | InvalidProductName
  | InvalidOrigin
  | InvalidCategory
  | ProductIdTooLong
  | ProductNameTooLong
  | OriginTooLong
  | CategoryTooLong
  | DescriptionTooLong
  | TooManyTags
  | TagTooLong
  | TooManyCertifications
  | TooManyMediaHashes
  | TooManyCustomFields
  | CustomFieldValueTooLong
  deriving DecidableEq, Repr

/-- types.rs: `Origin`. -/
structure Origin where
  location : String
  deriving DecidableEq, Repr

/-- types.rs: `Product`. -/
structure Product where
  id : String
  name : String
  description : String
  origin : Origin
  owner : Nat
  created_at : Nat
  active : Bool
  category : String
  tags : List String
  certifications : List Nat
  media_hashes : List Nat
  custom : List (String × String)
  deriving DecidableEq, Repr

/-- types.rs: `TrackingEvent`. -/
structure TrackingEvent where
  event_id : Nat
  product_id : String
  actor : Nat
  timestamp : Nat
  event_type : String
  location : String
  data_hash : Nat
  note : String
  metadata : List (String × String)
  deriving DecidableEq, Repr

/-- types.rs: `EventPage`. -/
structure EventPage where
  events : List TrackingEvent
  total_count : Nat
  has_more : Bool
  deriving DecidableEq, Repr

/-- types.rs: `EventFilter` (sentinels: empty `event_type`/`location`,
`start_time = 0`, `end_time = u64::MAX`). -/
structure EventFilter where
  event_type : String
  start_time : Nat
  end_time : Nat
  location : String
  deriving DecidableEq, Repr

/-- `u64::MAX`. -/
def u64MAX : Nat := 2 ^ 64 - 1

/-- The contract's persistent storage, one field per `DataKey` family
(storage.rs / types.rs): `Product(id)`, `ProductEventIds(id)`, `Event(id)`,
`EventSeq`, `Auth(id, actor)`, `EventTypeCount(id, ty)`,
`EventTypeIndex(id, ty, rank)`.  `Auth` entries are only ever stored with
value `true` or removed (storage.rs `set_auth`), so presence is a `Bool`. -/
structure CState where
  products : String → Option Product
  productEventIds : String → List Nat
  events : Nat → Option TrackingEvent
  eventSeq : Nat
  auth : String × Nat → Bool
  typeCount : String × String → Nat
  typeIndex : String × String × Nat → Option Nat

/-- Pointwise update of a storage map. -/
def setFn {α β : Type} [DecidableEq α] (f : α → β) (a : α) (b : β) : α → β :=
  fun x => if x = a then b else f x

/-- The empty ledger: storage with no entries (all lookups miss,
`EventSeq` absent reads as 0). -/
def initState : CState where
  products := fun _ => none
  productEventIds := fun _ => []
  events := fun _ => none
  eventSeq := 0
  auth := fun _ => false
  typeCount := fun _ => 0
  typeIndex := fun _ => none

/-- validation.rs: `non_empty`. -/
def non_empty (s : String) : Bool := s.length > 0

/-- validation.rs: `max_len`. -/
def max_len (s : String) (max : Nat) : Bool := s.length ≤ max

/-- storage.rs: `has_product`. -/
def has_product (s : CState) (id : String) : Bool := (s.products id).isSome

/-- storage.rs: `is_authorized` (missing key reads as `false`). -/
def is_authorized (s : CState) (pid : String) (actor : Nat) : Bool :=
  s.auth (pid, actor)

/-- storage.rs: `set_auth` — stores `true`, or removes the entry. -/
def set_auth (s : CState) (pid : String) (actor : Nat) (value : Bool) : CState :=
  { s with auth := setFn s.auth (pid, actor) value }

/-- storage.rs: `next_event_id` — reads the counter (0 when absent),
adds one, persists, returns the new value.  The caller traps instead when
`seq + 1` would overflow `u64`; that guard sits at the call sites. -/
def next_event_id (s : CState) : Nat × CState :=
  (s.eventSeq + 1, { s with eventSeq := s.eventSeq + 1 })

/-- The field-validation chain of contract.rs `register_product`
(lines 54–122), in the exact source order, returning the first failing
check's error. -/
def registerValidateFields (id name description origin_location category : String)
    (tags : List String) (certifications media_hashes : List Nat)
    (custom : List (String × String)) : Option Error :=
  if non_empty id = false then some .InvalidProductId
  else if max_len id 64 = false then some .ProductIdTooLong
  else if non_empty name = false then some .InvalidProductName
  else if max_len name 128 = false then some .ProductNameTooLong
  else if non_empty origin_location = false then some .InvalidOrigin
  else if max_len origin_location 256 = false then some .OriginTooLong
  else if non_empty category = false then some .InvalidCategory
  else if max_len category 64 = false then some .CategoryTooLong
  else if max_len description 2048 = false then some .DescriptionTooLong
  else if tags.length > 20 then some .TooManyTags
  else if tags.any (fun t => ! max_len t 64) then some .TagTooLong
  else if certifications.length > 50 then some .TooManyCertifications
  else if media_hashes.length > 50 then some .TooManyMediaHashes
  else if custom.length > 20 then some .TooManyCustomFields
  else if custom.any (fun kv => ! max_len kv.2 512) then some .CustomFieldValueTooLong
  else none

/-- contract.rs: `register_product`.  Validates every field (in source
order), then checks `has_product`, then persists the record, an empty
event-id list and an `Auth` edge for the owner, stamping `created_at`
with the ledger timestamp `now`. -/
def register_product (s : CState) (owner : Nat) (id name description
    origin_location category : String) (tags : List String)
    (certifications media_hashes : List Nat)
    (custom : List (String × String)) (now : Nat) :
    Except Error (Product × CState) :=
  match registerValidateFields id name description origin_location category
      tags certifications media_hashes custom with
  | some e => .error e
  | none =>
    if has_product s id = true then .error .ProductAlreadyExists
    else
      let product : Product :=
        { id := id, name := name, description := description
          origin := { location := origin_location }
          owner := owner, created_at := now, active := true
          category := category, tags := tags
          certifications := certifications, media_hashes := media_hashes
          custom := custom }
      let s1 := { s with products := setFn s.products id (some product) }
      let s2 := { s1 with productEventIds := setFn s1.productEventIds id [] }
      let s3 := set_auth s2 id owner true
      .ok (product, s3)

/-- contract.rs: `get_product`. -/
def get_product (s : CState) (id : String) : Except Error Product :=
  match s.products id with
  | some p => .ok p
  | none => .error .ProductNotFound

/-- contract.rs: `add_authorized_actor`. -/
def add_authorized_actor (s : CState) (owner : Nat) (pid : String)
    (actor : Nat) : Except Error (Unit × CState) :=
  match s.products pid with
  | none => .error .ProductNotFound
  | some p =>
    if p.owner ≠ owner then .error .Unauthorized
    else .ok ((), set_auth s pid actor true)

/-- contract.rs: `remove_authorized_actor`. -/
def remove_authorized_actor (s : CState) (owner : Nat) (pid : String)
    (actor : Nat) : Except Error (Unit × CState) :=
  match s.products pid with
  | none => .error .ProductNotFound
  | some p =>
    if p.owner ≠ owner then .error .Unauthorized
    else .ok ((), set_auth s pid actor false)

/-- contract.rs: `transfer_product` — requires `owner` to be the stored
owner, removes the old owner's `Auth` edge, rewrites the record with the
new owner, then stores an `Auth` edge for the new owner. -/
def transfer_product (s : CState) (owner : Nat) (pid : String)
    (new_owner : Nat) : Except Error (Unit × CState) :=
  match s.products pid with
  | none => .error .ProductNotFound
  | some p =>
    if p.owner ≠ owner then .error .Unauthorized
    else
      let s1 := set_auth s pid p.owner false
      let p1 := { p with owner := new_owner }
      let s2 := { s1 with products := setFn s1.products pid (some p1) }
      let s3 := set_auth s2 pid new_owner true
      .ok ((), s3)

/-- contract.rs: `set_product_active`. -/
def set_product_active (s : CState) (owner : Nat) (pid : String)
    (active : Bool) : Except Error (Unit × CState) :=
  match s.products pid with
  | none => .error .ProductNotFound
  | some p =>
    if p.owner ≠ owner then .error .Unauthorized
    else .ok ((), { s with products := setFn s.products pid (some { p with active := active }) })

/-- Modelled from the spec: `storage::index_event_by_type` is called by
contract.rs (line 266) but its body is not under src/; §4.5: "read current
count, increment, store `(record, type, newCount) -> eventId`, store new
count", over the `EventTypeIndex`/`EventTypeCount` keys declared in
types.rs. -/
def index_event_by_type (s : CState) (pid : String) (ty : String)
    (eid : Nat) : CState :=
  let c := s.typeCount (pid, ty)
  let s1 := { s with typeIndex := setFn s.typeIndex (pid, ty, c + 1) (some eid) }
  { s1 with typeCount := setFn s1.typeCount (pid, ty) (c + 1) }

/-- The committed write sequence of a successful `add_tracking_event`
(contract.rs lines 245–266): draw the next event id, store the event,
append the id to the product's event-id list, update the by-type
index. -/
def addCommit (s : CState) (actor : Nat) (pid : String)
    (event_type : String) (location : String) (data_hash : Nat)
    (note : String) (metadata : List (String × String)) (now : Nat) : CState :=
  let (event_id, s1) := next_event_id s
  let event : TrackingEvent :=
    { event_id := event_id, product_id := pid, actor := actor
      timestamp := now, event_type := event_type, location := location
      data_hash := data_hash, note := note, metadata := metadata }
  let s2 := { s1 with events := setFn s1.events event_id (some event) }
  let ids := s2.productEventIds pid
  let s3 := { s2 with productEventIds := setFn s2.productEventIds pid (ids ++ [event_id]) }
  index_event_by_type s3 pid event_type event_id

/-- contract.rs: `add_tracking_event`.  Checks product existence, the
active flag, owner-or-authorized (in that order, `require_can_add_event`),
validates only the metadata map (≤ 20 entries, each value ≤ 256), then
commits the writes of `addCommit`.  Returns `none` when the `u64`
sequence counter would overflow (a panic: the invocation aborts with no
writes). -/
def add_tracking_event (s : CState) (actor : Nat) (pid : String)
    (event_type : String) (location : String) (data_hash : Nat)
    (note : String) (metadata : List (String × String)) (now : Nat) :
    Option (Except Error (Nat × CState)) :=
  match s.products pid with
  | none => some (.error .ProductNotFound)
  | some p =>
    if p.active = false then some (.error .InvalidInput)
    else if p.owner ≠ actor ∧ is_authorized s pid actor = false then
      some (.error .Unauthorized)
    else if metadata.length > 20 then some (.error .TooManyCustomFields)
    else if metadata.any (fun kv => ! max_len kv.2 256) = true then
      some (.error .CustomFieldValueTooLong)
    else if s.eventSeq + 1 ≤ u64MAX then
      some (.ok (s.eventSeq + 1,
        addCommit s actor pid event_type location data_hash note metadata now))
    else none

/-- contract.rs: `get_event`. -/
def get_event (s : CState) (eid : Nat) : Except Error TrackingEvent :=
  match s.events eid with
  | some ev => .ok ev
  | none => .error .EventNotFound

/-- contract.rs: the entrypoint `is_authorized` — owner first, then the
stored `Auth` edge. -/
def is_authorized_entry (s : CState) (pid : String) (actor : Nat) :
    Except Error Bool :=
  match s.products pid with
  | none => .error .ProductNotFound
  | some p =>
    if p.owner = actor then .ok true
    else .ok (is_authorized s pid actor)

/-- contract.rs: `get_event_count`. -/
def get_event_count (s : CState) (pid : String) : Except Error Nat :=
  match s.products pid with
  | none => .error .ProductNotFound
  | some _ => .ok (s.productEventIds pid).length

/-- contract.rs: `get_event_count_by_type` — reads the stored
`EventTypeCount` entry (the storage-level body is not under src/; per
§4.5 the count is the stored counter, modelled by the `typeCount` field). -/
def get_event_count_by_type (s : CState) (pid : String) (ty : String) :
    Except Error Nat :=
  match s.products pid with
  | none => .error .ProductNotFound
  | some _ => .ok (s.typeCount (pid, ty))

/-- The `x as u32` cast of contract.rs (truncation). -/
def u32cast (n : Nat) : Nat := n % 2 ^ 32

/-- Modelled from the spec: `storage::get_product_event_ids_paginated` is
called by contract.rs (line 298) but its body is not under src/; §4.6:
skip `offset` items, return at most `limit`, an offset beyond the
population yielding an empty slice. -/
def get_product_event_ids_paginated (s : CState) (pid : String)
    (offset limit : Nat) : List Nat :=
  ((s.productEventIds pid).drop offset).take limit

/-- contract.rs: `get_product_events` — total count from the full id
list, page through the paginated storage read, `has_more` from the page
id count.  `none` models the `u64` overflow panic in
`offset + (event_ids.len() as u64)`. -/
def get_product_events (s : CState) (pid : String) (offset limit : Nat) :
    Option (Except Error EventPage) :=
  match s.products pid with
  | none => some (.error .ProductNotFound)
  | some _ =>
    let all_ids := s.productEventIds pid
    let total_count := all_ids.length
    let event_ids := get_product_event_ids_paginated s pid offset limit
    let events := event_ids.filterMap s.events
    if offset + event_ids.length ≤ u64MAX then
      some (.ok { events := events, total_count := total_count
                  has_more := decide (offset + event_ids.length < total_count) })
    else none

/-- Modelled from the spec: `storage::get_event_ids_by_type` is called by
contract.rs (line 328) but its body is not under src/; §4.5 `idsByType`:
read the total count; if `offset ≥ total` return empty; otherwise read
ranks `offset+1 .. min(offset+limit, total)` (1-based internal ranks)
from the `EventTypeIndex` entries and return the event ids in rank
order. -/
def get_event_ids_by_type (s : CState) (pid : String) (ty : String)
    (offset limit : Nat) : List Nat :=
  let total := s.typeCount (pid, ty)
  (List.range' (offset + 1) (min (offset + limit) total - offset)).filterMap
    (fun r => s.typeIndex (pid, ty, r))

/-- contract.rs: `get_events_by_type` — total from the by-type counter,
ids from the by-type index, `has_more` from the page id count. -/
def get_events_by_type (s : CState) (pid : String) (ty : String)
    (offset limit : Nat) : Option (Except Error EventPage) :=
  match s.products pid with
  | none => some (.error .ProductNotFound)
  | some _ =>
    let total_count := s.typeCount (pid, ty)
    let event_ids := get_event_ids_by_type s pid ty offset limit
    let events := event_ids.filterMap s.events
    if offset + event_ids.length ≤ u64MAX then
      some (.ok { events := events, total_count := total_count
                  has_more := decide (offset + event_ids.length < total_count) })
    else none

/-- The matching pass of contract.rs `get_events_by_time_range`
(lines 365–372): ids of the product's events whose timestamp lies in
`[start_time, end_time]`. -/
def time_matching_ids (s : CState) (pid : String)
    (start_time end_time : Nat) : List Nat :=
  (s.productEventIds pid).filter (fun eid =>
    match s.events eid with
    | some ev => decide (start_time ≤ ev.timestamp ∧ ev.timestamp ≤ end_time)
    | none => false)

/-- contract.rs: `get_events_by_time_range` — linear scan for matches,
then slice `start..end` with `start = offset as u32` and
`end = min((offset + limit) as u32, len)` (the source truncates both
`u64` values to `u32`).  `none` models the `u64` overflow panics in
`offset + limit` and in the `has_more` sum. -/
def get_events_by_time_range (s : CState) (pid : String)
    (start_time end_time offset limit : Nat) :
    Option (Except Error EventPage) :=
  match s.products pid with
  | none => some (.error .ProductNotFound)
  | some _ =>
    let matching_ids := time_matching_ids s pid start_time end_time
    let total_count := matching_ids.length
    if offset + limit ≤ u64MAX then
      let start := u32cast offset
      let stop := min (u32cast (offset + limit)) matching_ids.length
      let events := ((matching_ids.drop start).take (stop - start)).filterMap s.events
      if offset + events.length ≤ u64MAX then
        some (.ok { events := events, total_count := total_count
                    has_more := decide (offset + events.length < total_count) })
      else none
    else none

/-- The per-event filter check of contract.rs `get_filtered_events`
(lines 416–447): a `matches` flag initialized `true`, cleared by each
active filter dimension that fails, in source order. -/
def filter_matches (f : EventFilter) (ev : TrackingEvent) : Bool :=
  let m0 := true
  let m1 := if f.event_type ≠ "" then
      (if ev.event_type ≠ f.event_type then false else m0) else m0
  let m2 := if f.start_time > 0 then
      (if ev.timestamp < f.start_time then false else m1) else m1
  let m3 := if f.end_time < u64MAX then
      (if ev.timestamp > f.end_time then false else m2) else m2
  let m4 := if f.location ≠ "" then
      (if ev.location ≠ f.location then false else m3) else m3
  m4

/-- The matching pass of contract.rs `get_filtered_events`
(lines 413–453): ids of the product's events passing `filter_matches`. -/
def get_filtered_matching_ids (s : CState) (pid : String)
    (f : EventFilter) : List Nat :=
  (s.productEventIds pid).filter (fun eid =>
    match s.events eid with
    | some ev => filter_matches f ev
    | none => false)

/-- contract.rs: `get_filtered_events` — linear scan with
`filter_matches`, then the same truncating `u32` slice as
`get_events_by_time_range`. -/
def get_filtered_events (s : CState) (pid : String) (f : EventFilter)
    (offset limit : Nat) : Option (Except Error EventPage) :=
  match s.products pid with
  | none => some (.error .ProductNotFound)
  | some _ =>
    let matching_ids := get_filtered_matching_ids s pid f
    let total_count := matching_ids.length
    if offset + limit ≤ u64MAX then
      let start := u32cast offset
      let stop := min (u32cast (offset + limit)) matching_ids.length
      let events := ((matching_ids.drop start).take (stop - start)).filterMap s.events
      if offset + events.length ≤ u64MAX then
        some (.ok { events := events, total_count := total_count
                    has_more := decide (offset + events.length < total_count) })
      else none
    else none

/-- Modelled from the spec: the batch error kinds of §7
(`BatchEmpty` / `BatchTooLarge` / `DuplicateInBatch`) alongside the
per-field validation errors; `registerBatch` exists only in the spec
(§4.7), not under src/. -/
inductive BatchError where
  | batchEmpty
  | batchTooLarge
  | duplicateInBatch
  | validation (e : Error)
  deriving DecidableEq, Repr

/-- Modelled from the spec: one registration input of `registerBatch`
(§6: the `register` fields minus the batch-level owner). -/
structure RegisterInput where
  id : String
  name : String
  description : String
  origin_location : String
  category : String
  tags : List String
  certifications : List Nat
  media_hashes : List Nat
  custom : List (String × String)
  deriving DecidableEq, Repr

/-- Field validation of one batch input, reusing the §3 checks of
`register_product`. -/
def inputValidate (inp : RegisterInput) : Option Error :=
  registerValidateFields inp.id inp.name inp.description inp.origin_location
    inp.category inp.tags inp.certifications inp.media_hashes inp.custom

/-- Modelled from the spec: the batch size cap of §4.7 ("rejects empty or
over-limit batches up front"); the spec fixes no number, 100 here. -/
def MAX_BATCH_SIZE : Nat := 100

/-- Modelled from the spec: the validation pass of `registerBatch`
(§4.7) — for each input in order, field validation, then
duplicate-against-store, then duplicate-within-batch against the ids
seen so far; the first failure aborts the pass. -/
def validateBatchPass (s : CState) :
    List RegisterInput → List String → Option BatchError
  | [], _ => none
  | inp :: rest, seen =>
    match inputValidate inp with
    | some e => some (.validation e)
    | none =>
      if has_product s inp.id = true then some (.validation .ProductAlreadyExists)
      else if inp.id ∈ seen then some .duplicateInBatch
      else validateBatchPass s rest (inp.id :: seen)

/-- Modelled from the spec: the write pass of `registerBatch` (§4.7) —
one `register` per input, in input order. -/
def writeBatchPass (owner : Nat) (now : Nat) :
    CState → List RegisterInput → Except BatchError (List Product × CState)
  | s, [] => .ok ([], s)
  | s, inp :: rest =>
    match register_product s owner inp.id inp.name inp.description
        inp.origin_location inp.category inp.tags inp.certifications
        inp.media_hashes inp.custom now with
    | .error e => .error (.validation e)
    | .ok (p, s1) =>
      match writeBatchPass owner now s1 rest with
      | .error e => .error e
      | .ok (ps, s2) => .ok (p :: ps, s2)

/-- Modelled from the spec: `registerBatch(owner, inputs)` (§4.7) —
empty/over-limit rejection up front, then a complete validation pass
over all inputs, and only if every input passes, the write pass. -/
def register_batch (s : CState) (owner : Nat) (inputs : List RegisterInput)
    (now : Nat) : Except BatchError (List Product × CState) :=
  if inputs.length = 0 then .error .batchEmpty
  else if inputs.length > MAX_BATCH_SIZE then .error .batchTooLarge
  else
    match validateBatchPass s inputs [] with
    | some e => .error e
    | none => writeBatchPass owner now s inputs

/-- The storage visible after a `register_batch` invocation: the new
state on success, the untouched state on abort (the substrate commits
all of an invocation's writes or none, §5). -/
def register_batch_state (s : CState) (owner : Nat)
    (inputs : List RegisterInput) (now : Nat) : CState :=
  match register_batch s owner inputs now with
  | .ok (_, s1) => s1
  | .error _ => s

/-! ## The contract as a state machine

One constructor per mutating entrypoint (queries do not write).  A failed
or trapped invocation leaves storage untouched (§5: every operation's
writes commit in full or not at all). -/

inductive Op where
  | register (owner : Nat) (id name description origin_location category : String)
      (tags : List String) (certifications media_hashes : List Nat)
      (custom : List (String × String)) (now : Nat)
  | addEvent (actor : Nat) (pid event_type location : String)
      (data_hash : Nat) (note : String) (metadata : List (String × String))
      (now : Nat)
  | addAuth (owner : Nat) (pid : String) (actor : Nat)
  | removeAuth (owner : Nat) (pid : String) (actor : Nat)
  | transfer (owner : Nat) (pid : String) (new_owner : Nat)
  | setActive (owner : Nat) (pid : String) (active : Bool)
  | regBatch (owner : Nat) (inputs : List RegisterInput) (now : Nat)

/-- Storage after one invocation: the committed state on success, the
original state on error or trap. -/
def applyOp (op : Op) (s : CState) : CState :=
  match op with
  | .register owner id name description origin_location category tags
      certifications media_hashes custom now =>
    match register_product s owner id name description origin_location
        category tags certifications media_hashes custom now with
    | .ok (_, s1) => s1
    | .error _ => s
  | .addEvent actor pid event_type location data_hash note metadata now =>
    match add_tracking_event s actor pid event_type location data_hash
        note metadata now with
    | some (.ok (_, s1)) => s1
    | _ => s
  | .addAuth owner pid actor =>
    match add_authorized_actor s owner pid actor with
    | .ok (_, s1) => s1
    | .error _ => s
  | .removeAuth owner pid actor =>
    match remove_authorized_actor s owner pid actor with
    | .ok (_, s1) => s1
    | .error _ => s
  | .transfer owner pid new_owner =>
    match transfer_product s owner pid new_owner with
    | .ok (_, s1) => s1
    | .error _ => s
  | .setActive owner pid active =>
    match set_product_active s owner pid active with
    | .ok (_, s1) => s1
    | .error _ => s
  | .regBatch owner inputs now => register_batch_state s owner inputs now

/-- Run a sequence of invocations, first one first. -/
def execOps : List Op → CState → CState
  | [], s => s
  | op :: ops, s => execOps ops (applyOp op s)

/-- A storage state the deployed contract can actually be in. -/
def Reachable (s : CState) : Prop := ∃ ops : List Op, execOps ops initState = s

/-- Whether the stored event with id `eid` belongs to product `pid` and
has type `ty`. -/
def typePred (s : CState) (pid : String) (ty : String) (eid : Nat) : Bool :=
  match s.events eid with
  | some ev => ev.product_id == pid && ev.event_type == ty
  | none => false

/-- The number of stored events with the given product and type, counted
along the product's event-id list. -/
def countByType (s : CState) (pid : String) (ty : String) : Nat :=
  ((s.productEventIds pid).filter (typePred s pid ty)).length

/-- The §4.6 filter contract, stated from the spec's words: a dimension
at its sentinel (empty type tag, zero start time, `u64::MAX` end time,
empty location) participates in no comparison and excludes no event; an
active dimension must be satisfied. -/
def specFilterSatisfies (f : EventFilter) (ev : TrackingEvent) : Prop :=
  (f.event_type ≠ "" → ev.event_type = f.event_type) ∧
  (f.start_time ≠ 0 → f.start_time ≤ ev.timestamp) ∧
  (f.end_time ≠ u64MAX → ev.timestamp ≤ f.end_time) ∧
  (f.location ≠ "" → ev.location = f.location)

instance (f : EventFilter) (ev : TrackingEvent) :
    Decidable (specFilterSatisfies f ev) := by
  unfold specFilterSatisfies; infer_instance

/-! ## Basic lemmas -/

@[simp]
lemma setFn_same {α β : Type} [DecidableEq α] (f : α → β) (a : α) (b : β) :
    setFn f a b a = b := by simp [setFn]

lemma setFn_other {α β : Type} [DecidableEq α] (f : α → β) {a x : α} (b : β)
    (h : x ≠ a) : setFn f a b x = f x := by simp [setFn, h]

lemma length_filterMap_all {α β : Type} {l : List α} {f : α → Option β}
    (h : ∀ x ∈ l, (f x).isSome) : (l.filterMap f).length = l.length := by
  induction l with
  | nil => rfl
  | cons a t ih =>
    have ha := h a (List.mem_cons_self a t)
    obtain ⟨b, hb⟩ := Option.isSome_iff_exists.mp ha
    simp [List.filterMap_cons, hb, ih fun x hx => h x (List.mem_cons_of_mem a hx)]

/-! ## Characterizations of the operations -/

lemma addCommit_products (s : CState) (actor : Nat) (pid ty loc : String)
    (dh : Nat) (note : String) (meta : List (String × String)) (now : Nat) :
    (addCommit s actor pid ty loc dh note meta now).products = s.products := rfl

lemma addCommit_eventSeq (s : CState) (actor : Nat) (pid ty loc : String)
    (dh : Nat) (note : String) (meta : List (String × String)) (now : Nat) :
    (addCommit s actor pid ty loc dh note meta now).eventSeq = s.eventSeq + 1 := rfl

lemma addCommit_auth (s : CState) (actor : Nat) (pid ty loc : String)
    (dh : Nat) (note : String) (meta : List (String × String)) (now : Nat) :
    (addCommit s actor pid ty loc dh note meta now).auth = s.auth := rfl

lemma addCommit_events (s : CState) (actor : Nat) (pid ty loc : String)
    (dh : Nat) (note : String) (meta : List (String × String)) (now : Nat) :
    (addCommit s actor pid ty loc dh note meta now).events =
      setFn s.events (s.eventSeq + 1) (some
        { event_id := s.eventSeq + 1, product_id := pid, actor := actor
          timestamp := now, event_type := ty, location := loc
          data_hash := dh, note := note, metadata := meta }) := rfl

lemma addCommit_productEventIds (s : CState) (actor : Nat)
    (pid ty loc : String) (dh : Nat) (note : String)
    (meta : List (String × String)) (now : Nat) :
    (addCommit s actor pid ty loc dh note meta now).productEventIds =
      setFn s.productEventIds pid (s.productEventIds pid ++ [s.eventSeq + 1]) := rfl

lemma addCommit_typeCount (s : CState) (actor : Nat) (pid ty loc : String)
    (dh : Nat) (note : String) (meta : List (String × String)) (now : Nat) :
    (addCommit s actor pid ty loc dh note meta now).typeCount =
      setFn s.typeCount (pid, ty) (s.typeCount (pid, ty) + 1) := rfl

lemma addCommit_typeIndex (s : CState) (actor : Nat) (pid ty loc : String)
    (dh : Nat) (note : String) (meta : List (String × String)) (now : Nat) :
    (addCommit s actor pid ty loc dh note meta now).typeIndex =
      setFn s.typeIndex (pid, ty, s.typeCount (pid, ty) + 1)
        (some (s.eventSeq + 1)) := rfl

/-- Success shape of `add_tracking_event`: the returned id is the new
sequence value and the new state is `addCommit`; the preconditions held. -/
lemma add_tracking_event_ok {s : CState} {actor : Nat}
    {pid ty loc : String} {dh : Nat} {note : String}
    {meta : List (String × String)} {now n : Nat} {s' : CState}
    (h : add_tracking_event s actor pid ty loc dh note meta now =
      some (.ok (n, s'))) :
    n = s.eventSeq + 1 ∧
    s' = addCommit s actor pid ty loc dh note meta now ∧
    (∃ p, s.products pid = some p ∧ p.active = true ∧
      (p.owner = actor ∨ is_authorized s pid actor = true)) ∧
    meta.length ≤ 20 ∧ s.eventSeq + 1 ≤ u64MAX := by
  unfold add_tracking_event at h
  split at h
  · simp at h
  · next p hp =>
    split_ifs at h with h1 h2 h3 h4 h5
    · simp at h
    · simp at h
    · simp at h
    · simp at h
    · simp only [Option.some.injEq, Except.ok.injEq, Prod.mk.injEq] at h
      refine ⟨h.1.symm, h.2.symm, ⟨p, hp, ?_, ?_⟩, by omega, h5⟩
      · revert h1; cases p.active <;> simp
      · rcases not_and_or.mp h2 with hc | hc
        · exact Or.inl (not_not.mp hc)
        · refine Or.inr ?_
          revert hc; cases hiz : is_authorized s pid actor <;> simp

/-- Success shape of `register_product`. -/
lemma register_product_ok {s : CState} {owner : Nat}
    {id name description origin_location category : String}
    {tags : List String} {certifications media_hashes : List Nat}
    {custom : List (String × String)} {now : Nat} {p : Product} {s' : CState}
    (h : register_product s owner id name description origin_location
      category tags certifications media_hashes custom now = .ok (p, s')) :
    registerValidateFields id name description origin_location category
      tags certifications media_hashes custom = none ∧
    s.products id = none ∧
    p = { id := id, name := name, description := description
          origin := { location := origin_location }
          owner := owner, created_at := now, active := true
          category := category, tags := tags
          certifications := certifications, media_hashes := media_hashes
          custom := custom } ∧
    s' = { s with products := setFn s.products id (some p)
                  productEventIds := setFn s.productEventIds id []
                  auth := setFn s.auth (id, owner) true } := by
  unfold register_product at h
  split at h
  · simp at h
  · next hv =>
    split_ifs at h with hex
    · have hpn : s.products id = none := by
        revert hex; unfold has_product
        cases s.products id <;> simp
      simp only [Except.ok.injEq, Prod.mk.injEq] at h
      obtain ⟨hp1, hs1⟩ := h
      subst hs1
      subst hp1
      exact ⟨hv, hpn, rfl, rfl⟩

/-- Success shape of `transfer_product`. -/
lemma transfer_product_ok {s : CState} {owner : Nat} {pid : String}
    {new_owner : Nat} {s' : CState}
    (h : transfer_product s owner pid new_owner = .ok ((), s')) :
    ∃ p, s.products pid = some p ∧ p.owner = owner ∧
      s' = { s with
        products := setFn s.products pid (some { p with owner := new_owner })
        auth := setFn (setFn s.auth (pid, p.owner) false) (pid, new_owner) true } := by
  unfold transfer_product at h
  split at h
  · simp at h
  · next p hp =>
    split_ifs at h with h1
    · simp only [Except.ok.injEq, Prod.mk.injEq, true_and] at h
      exact ⟨p, hp, not_not.mp h1, h.symm⟩

/-! ## Sequence-counter monotonicity -/

lemma writeBatchPass_eventSeq {owner now : Nat} :
    ∀ (inputs : List RegisterInput) (s : CState) (ps : List Product)
      (s' : CState), writeBatchPass owner now s inputs = .ok (ps, s') →
      s'.eventSeq = s.eventSeq := by
  intro inputs
  induction inputs with
  | nil => intro s ps s' h; simp only [writeBatchPass] at h; simp_all
  | cons inp rest ih =>
    intro s ps s' h
    simp only [writeBatchPass] at h
    split at h
    · simp at h
    · next p s1 hreg =>
      split at h
      · simp at h
      · next ps2 s2 hrest =>
        simp only [Except.ok.injEq, Prod.mk.injEq] at h
        have h1 := (register_product_ok hreg).2.2.2
        have h2 := ih s1 ps2 s2 hrest
        rw [← h.2, h2, h1]

lemma applyOp_eventSeq_le (op : Op) (s : CState) :
    s.eventSeq ≤ (applyOp op s).eventSeq := by
  cases op with
  | register owner id name description origin_location category tags
      certifications media_hashes custom now =>
    simp only [applyOp]
    split
    · next p s' h => rw [(register_product_ok h).2.2.2]
    · exact le_refl _
  | addEvent actor pid ty loc dh note meta now =>
    simp only [applyOp]
    split
    · next n s' h => rw [(add_tracking_event_ok h).2.1, addCommit_eventSeq]; omega
    · exact le_refl _
  | addAuth owner pid actor =>
    simp only [applyOp]
    split
    · next s' h =>
      unfold add_authorized_actor at h
      split at h
      · simp at h
      · split_ifs at h with h1
        all_goals first
        | (simp at h; done)
        | ((simp only [Except.ok.injEq, Prod.mk.injEq] at h
            rw [← h.2]) <;> exact le_refl _)
    · exact le_refl _
  | removeAuth owner pid actor =>
    simp only [applyOp]
    split
    · next s' h =>
      unfold remove_authorized_actor at h
      split at h
      · simp at h
      · split_ifs at h with h1
        all_goals first
        | (simp at h; done)
        | ((simp only [Except.ok.injEq, Prod.mk.injEq] at h
            rw [← h.2]) <;> exact le_refl _)
    · exact le_refl _
  | transfer owner pid new_owner =>
    simp only [applyOp]
    split
    · next s' h =>
      obtain ⟨p, _, _, hs'⟩ := transfer_product_ok h
      rw [hs']
    · exact le_refl _
  | setActive owner pid active =>
    simp only [applyOp]
    split
    · next s' h =>
      unfold set_product_active at h
      split at h
      · simp at h
      · split_ifs at h with h1
        all_goals first
        | (simp at h; done)
        | ((simp only [Except.ok.injEq, Prod.mk.injEq] at h
            rw [← h.2]) <;> exact le_refl _)
    · exact le_refl _
  | regBatch owner inputs now =>
    simp only [applyOp]
    unfold register_batch_state
    split
    · next ps s' h =>
      unfold register_batch at h
      split_ifs at h with h1 h2
      all_goals first
      | (simp at h; done)
      | (split at h
         · simp at h
         · exact le_of_eq (writeBatchPass_eventSeq inputs s ps s' h).symm)
    · exact le_refl _

lemma execOps_eventSeq_le (ops : List Op) (s : CState) :
    s.eventSeq ≤ (execOps ops s).eventSeq := by
  induction ops generalizing s with
  | nil => exact le_refl _
  | cons op rest ih =>
    exact le_trans (applyOp_eventSeq_le op s) (ih (applyOp op s))

/-! ## Concrete fixtures for witnesses and counterexamples -/

/-- The stored record of the fixture product `"P1"` (owner 7). -/
def wProd : Product where
  id := "P1"
  name := "Tea"
  description := "desc"
  origin := { location := "OriginX" }
  owner := 7
  created_at := 5
  active := true
  category := "Cat"
  tags := []
  certifications := []
  media_hashes := []
  custom := []

/-- A ledger holding the single product `"P1"` owned by actor `7`. -/
def wReg : CState :=
  applyOp (Op.register 7 "P1" "Tea" "desc" "OriginX" "Cat" [] [] [] [] 5) initState

/-- `wReg` after one `"HARVEST"` event appended by the owner. -/
def wAdd1 : CState := addCommit wReg 7 "P1" "HARVEST" "Farm" 0 "n" [] 6

/-! ## Claims -/

/-- **C1.** For every sequence of successful `add_tracking_event` calls
from any state (in particular any reachable one), the returned event IDs
are strictly increasing and no ID is ever returned twice, even when the
calls target different products: a success returns `eventSeq + 1`, and no
operation ever decreases `eventSeq`. -/
theorem c1_event_ids_strictly_increasing (ops : List Op)
    {s s1 s2 : CState} {a1 a2 dh1 dh2 now1 now2 id1 id2 : Nat}
    {p1 p2 ty1 ty2 loc1 loc2 note1 note2 : String}
    {m1 m2 : List (String × String)}
    (h1 : add_tracking_event s a1 p1 ty1 loc1 dh1 note1 m1 now1 =
      some (.ok (id1, s1)))
    (h2 : add_tracking_event (execOps ops s1) a2 p2 ty2 loc2 dh2 note2 m2 now2 =
      some (.ok (id2, s2))) :
    id1 < id2 := by
  obtain ⟨hn1, hs1, -, -, -⟩ := add_tracking_event_ok h1
  obtain ⟨hn2, -, -, -, -⟩ := add_tracking_event_ok h2
  have hseq : s1.eventSeq ≤ (execOps ops s1).eventSeq := execOps_eventSeq_le ops s1
  subst hs1
  rw [addCommit_eventSeq] at hseq
  omega

/-- Witness for C1: two consecutive appends on a concrete one-product
ledger return IDs 1 and then 2. -/
theorem c1_event_ids_strictly_increasing_witness :
    add_tracking_event wReg 7 "P1" "HARVEST" "Farm" 0 "n" [] 6 =
      some (.ok (1, wAdd1)) ∧
    add_tracking_event (execOps [] wAdd1) 7 "P1" "SHIP" "Port" 0 "n" [] 7 =
      some (.ok (2, addCommit wAdd1 7 "P1" "SHIP" "Port" 0 "n" [] 7)) ∧
    (1 : Nat) < 2 := by
  have H1 : add_tracking_event wReg 7 "P1" "HARVEST" "Farm" 0 "n" [] 6 =
      some (.ok (1, wAdd1)) := by rfl
  have H2 : add_tracking_event (execOps [] wAdd1) 7 "P1" "SHIP" "Port" 0 "n" [] 7 =
      some (.ok (2, addCommit wAdd1 7 "P1" "SHIP" "Port" 0 "n" [] 7)) := by rfl
  exact ⟨H1, H2, c1_event_ids_strictly_increasing [] H1 H2⟩

/-- **C2 (counterexample).** The claim "a second `register_product` with
an already-registered id returns `AlreadyExists` *regardless of the
values of all other input fields*" is false: field validation runs before
the duplicate check (contract.rs lines 67–126), so re-registering the
existing id `"P1"` with an empty name returns `InvalidProductName`, not
`ProductAlreadyExists`. -/
theorem c2_counterexample :
    has_product wReg "P1" = true ∧
    register_product wReg 8 "P1" "" "d" "O" "C" [] [] [] [] 6 =
      .error .InvalidProductName ∧
    Error.InvalidProductName ≠ Error.ProductAlreadyExists := by
  refine ⟨by rfl, by rfl, by decide⟩

/-- **C2 (amended).** If `register_product(id=X)` previously succeeded,
a subsequent `register_product` with `id=X` whose remaining fields pass
the §3 field validation returns `ProductAlreadyExists` and leaves the
store unchanged (with invalid fields the specific field-validation error
is returned instead, still leaving the store unchanged). -/
theorem c2_duplicate_register_rejected {s : CState} {owner : Nat}
    {id name description origin_location category : String}
    {tags : List String} {certifications media_hashes : List Nat}
    {custom : List (String × String)} {now : Nat} {p : Product}
    (hex : s.products id = some p)
    (hv : registerValidateFields id name description origin_location
      category tags certifications media_hashes custom = none) :
    register_product s owner id name description origin_location category
      tags certifications media_hashes custom now =
      .error .ProductAlreadyExists ∧
    applyOp (Op.register owner id name description origin_location
      category tags certifications media_hashes custom now) s = s := by
  have hreg : register_product s owner id name description origin_location
      category tags certifications media_hashes custom now =
      .error .ProductAlreadyExists := by
    unfold register_product
    rw [hv]
    simp [has_product, hex]
  exact ⟨hreg, by simp only [applyOp, hreg]⟩

/-- Witness for C2 (amended): re-registering `"P1"` with valid fields on
the concrete one-product ledger fails with `ProductAlreadyExists`. -/
theorem c2_duplicate_register_rejected_witness :
    wReg.products "P1" = some wProd ∧
    register_product wReg 8 "P1" "Tea2" "d2" "O2" "C2" [] [] [] [] 6 =
      .error .ProductAlreadyExists :=
  ⟨by rfl, (c2_duplicate_register_rejected (by rfl) (by rfl)).1⟩

/-- Success shape of `set_product_active`. -/
lemma set_product_active_ok {s : CState} {owner : Nat} {pid : String}
    {active : Bool} {s' : CState}
    (h : set_product_active s owner pid active = .ok ((), s')) :
    ∃ p, s.products pid = some p ∧ p.owner = owner ∧
      s' = { s with
        products := setFn s.products pid (some { p with active := active }) } := by
  unfold set_product_active at h
  split at h
  · simp at h
  · next p hp =>
    split_ifs at h with h1
    · simp only [Except.ok.injEq, Prod.mk.injEq, true_and] at h
      exact ⟨p, hp, not_not.mp h1, h.symm⟩

/-- **C6.** A successful `transfer_product` leaves every other actor's
explicit `Auth` entry for the product exactly as it was (third-party
authorizations survive ownership transfer); the only revoked edge is the
old owner's. -/
theorem c6_transfer_preserves_third_party_auth {s s' : CState}
    {pid : String} {owner new_owner : Nat} {p : Product}
    (hp : s.products pid = some p)
    (ht : transfer_product s owner pid new_owner = .ok ((), s')) :
    (∀ actor, actor ≠ p.owner → actor ≠ new_owner →
      s'.auth (pid, actor) = s.auth (pid, actor)) ∧
    (new_owner ≠ p.owner → s'.auth (pid, p.owner) = false) := by
  obtain ⟨q, hq, hqo, hs'⟩ := transfer_product_ok ht
  rw [hp] at hq
  injection hq with hq
  subst hq
  subst hs'
  constructor
  · intro actor ha1 ha2
    show (setFn (setFn s.auth (pid, p.owner) false) (pid, new_owner) true)
      (pid, actor) = s.auth (pid, actor)
    rw [setFn_other _ _ (by simp [ha2]), setFn_other _ _ (by simp [ha1])]
  · intro hno
    show (setFn (setFn s.auth (pid, p.owner) false) (pid, new_owner) true)
      (pid, p.owner) = false
    rw [setFn_other _ _ (by simp [Ne.symm hno]), setFn_same]

/-- Witness for C6: transferring `"P1"` from owner 7 to 9 keeps a third
actor 11's granted edge and clears the old owner's. -/
theorem c6_transfer_preserves_third_party_auth_witness :
    (set_auth wReg "P1" 11 true).products "P1" = some wProd ∧
    (∃ s', transfer_product (set_auth wReg "P1" 11 true) 7 "P1" 9 = .ok ((), s') ∧
      s'.auth ("P1", 11) = (set_auth wReg "P1" 11 true).auth ("P1", 11) ∧
      s'.auth ("P1", 7) = false) := by
  have hp : (set_auth wReg "P1" 11 true).products "P1" = some wProd := by rfl
  have ht : transfer_product (set_auth wReg "P1" 11 true) 7 "P1" 9 =
      .ok ((), applyOp (Op.transfer 7 "P1" 9) (set_auth wReg "P1" 11 true)) := by rfl
  have H := c6_transfer_preserves_third_party_auth hp ht
  exact ⟨hp, _, ht, H.1 11 (by decide) (by decide), H.2 (by decide)⟩

/-- **C7 (counterexample).** The claim "the current owner is never stored
as an explicit authorization edge" is false: `register_product` itself
writes `Auth(id, owner) = true` (contract.rs line 149), so already in the
reachable one-product ledger the owner's edge is present. -/
theorem c7_counterexample :
    Reachable wReg ∧
    (wReg.products "P1").map Product.owner = some 7 ∧
    wReg.auth ("P1", 7) = true :=
  ⟨⟨[Op.register 7 "P1" "Tea" "desc" "OriginX" "Cat" [] [] [] [] 5], rfl⟩,
   by rfl, by rfl⟩

/-- **C7 (amended).** `register_product` writes an explicit `Auth` edge
for the owner, and `transfer_product` writes one for the new owner while
removing the old owner's; the owner is in addition always implicitly
authorized through the record's `owner` field. -/
theorem c7_owner_edge_is_written {s s1 s2 : CState} {owner new_owner : Nat}
    {id name description origin_location category : String}
    {tags : List String} {certifications media_hashes : List Nat}
    {custom : List (String × String)} {now : Nat} {p : Product}
    (hr : register_product s owner id name description origin_location
      category tags certifications media_hashes custom now = .ok (p, s1))
    (ht : transfer_product s1 owner id new_owner = .ok ((), s2)) :
    s1.auth (id, owner) = true ∧
    is_authorized_entry s1 id owner = .ok true ∧
    s2.auth (id, new_owner) = true ∧
    (new_owner ≠ owner → s2.auth (id, owner) = false) := by
  obtain ⟨-, -, hpval, hs1⟩ := register_product_ok hr
  subst hpval
  subst hs1
  obtain ⟨q, hq, hqo, hs2⟩ := transfer_product_ok ht
  subst hs2
  have hprod : ({ s with
      products := setFn s.products id (some
        { id := id, name := name, description := description
          origin := { location := origin_location }
          owner := owner, created_at := now, active := true
          category := category, tags := tags
          certifications := certifications, media_hashes := media_hashes
          custom := custom })
      productEventIds := setFn s.productEventIds id []
      auth := setFn s.auth (id, owner) true } : CState).products id = some
        { id := id, name := name, description := description
          origin := { location := origin_location }
          owner := owner, created_at := now, active := true
          category := category, tags := tags
          certifications := certifications, media_hashes := media_hashes
          custom := custom } := setFn_same _ _ _
  rw [hprod] at hq
  injection hq with hq
  subst hq
  refine ⟨setFn_same _ _ _, ?_, setFn_same _ _ _, ?_⟩
  · simp [is_authorized_entry, setFn]
  · intro hne
    show (setFn (setFn _ _ false) (id, new_owner) true) (id, owner) = false
    rw [setFn_other _ _ (by simp [Ne.symm hne])]
    exact setFn_same _ _ _

/-- Witness for C7 (amended): on the concrete ledger, registering `"P1"`
(owner 7) stores the owner edge, and transferring to 9 stores 9's edge
and clears 7's. -/
theorem c7_owner_edge_is_written_witness :
    wReg.auth ("P1", 7) = true ∧ wReg.auth ("P1", 9) = false ∧
    (applyOp (Op.transfer 7 "P1" 9) wReg).auth ("P1", 9) = true ∧
    (applyOp (Op.transfer 7 "P1" 9) wReg).auth ("P1", 7) = false := by
  have hr : register_product initState 7 "P1" "Tea" "desc" "OriginX" "Cat"
      [] [] [] [] 5 = .ok (wProd, wReg) := by rfl
  have ht : transfer_product wReg 7 "P1" 9 =
      .ok ((), applyOp (Op.transfer 7 "P1" 9) wReg) := by rfl
  have H := c7_owner_edge_is_written hr ht
  exact ⟨H.1, by rfl, H.2.2.1, H.2.2.2 (by decide)⟩

/-- **C5.** After `set_product_active(.., false)`, `add_tracking_event`
fails for every actor — including the owner — with the error the code
uses for an inactive record (`Error::InvalidInput`, the realization of
the spec's semantic `InvalidState` kind, §7), with no state change; and
`set_product_active(.., true)` returns storage to exactly the original
state, restoring the prior append behavior. -/
theorem c5_inactive_gate {s s1 : CState} {pid : String} {p : Product}
    {owner : Nat}
    (hp : s.products pid = some p) (hown : p.owner = owner)
    (hact : p.active = true)
    (hset : set_product_active s owner pid false = .ok ((), s1)) :
    (∀ actor ty loc dh note meta now,
      add_tracking_event s1 actor pid ty loc dh note meta now =
        some (.error .InvalidInput)) ∧
    (∀ actor ty loc dh note meta now,
      applyOp (Op.addEvent actor pid ty loc dh note meta now) s1 = s1) ∧
    set_product_active s1 owner pid true = .ok ((), s) := by
  obtain ⟨q, hq, hqo, hs1⟩ := set_product_active_ok hset
  rw [hp] at hq
  injection hq with hq
  subst hq
  subst hs1
  have hp1 : ({ s with
      products := setFn s.products pid (some { p with active := false }) } :
      CState).products pid = some { p with active := false } :=
    setFn_same _ _ _
  have hadd : ∀ actor ty loc dh note meta now,
      add_tracking_event { s with
        products := setFn s.products pid (some { p with active := false }) }
        actor pid ty loc dh note meta now = some (.error .InvalidInput) := by
    intro actor ty loc dh note meta now
    unfold add_tracking_event
    rw [hp1]
    dsimp only
    rw [if_pos rfl]
  refine ⟨hadd, ?_, ?_⟩
  · intro actor ty loc dh note meta now
    simp only [applyOp, hadd actor ty loc dh note meta now]
  · have hpp : ({ p with active := true } : Product) = p := by
      cases p
      simp_all
    have hfun : setFn (setFn s.products pid (some { p with active := false }))
        pid (some { p with active := true }) = s.products := by
      funext x
      by_cases hx : x = pid
      · subst hx
        rw [setFn_same, hp, hpp]
      · rw [setFn_other _ _ hx, setFn_other _ _ hx]
    unfold set_product_active
    rw [hp1]
    dsimp only
    rw [if_neg (fun hcon => hcon hqo)]
    exact congrArg (fun f =>
      (Except.ok ((), { s with products := f }) :
        Except Error (Unit × CState))) hfun

/-- Witness for C5: deactivating the concrete product `"P1"` makes the
owner's own append fail with `InvalidInput`, and reactivating restores
the original ledger. -/
theorem c5_inactive_gate_witness :
    set_product_active wReg 7 "P1" false =
      .ok ((), applyOp (Op.setActive 7 "P1" false) wReg) ∧
    add_tracking_event (applyOp (Op.setActive 7 "P1" false) wReg) 7 "P1"
      "HARVEST" "Farm" 0 "n" [] 6 = some (.error .InvalidInput) ∧
    set_product_active (applyOp (Op.setActive 7 "P1" false) wReg) 7 "P1" true =
      .ok ((), wReg) := by
  have hset : set_product_active wReg 7 "P1" false =
      .ok ((), applyOp (Op.setActive 7 "P1" false) wReg) := by rfl
  have hp : wReg.products "P1" = some wProd := by rfl
  have H := c5_inactive_gate hp (by rfl) (by rfl) hset
  exact ⟨hset, H.1 7 "HARVEST" "Farm" 0 "n" [] 6, H.2.2⟩

/-- **C10.** `add_tracking_event` validates only the metadata map: with
at most 20 entries whose values are each at most 256 characters it
succeeds for every `event_type`, `location` and `note` (no emptiness or
length checks on those); more than 20 entries fail with
`TooManyCustomFields`, an over-long value fails with
`CustomFieldValueTooLong`. -/
theorem c10_only_metadata_validated {s : CState} {actor : Nat}
    {pid : String} {p : Product}
    (hp : s.products pid = some p) (hact : p.active = true)
    (hauth : p.owner = actor ∨ is_authorized s pid actor = true)
    (hseq : s.eventSeq + 1 ≤ u64MAX) :
    (∀ ty loc dh note meta now, meta.length ≤ 20 →
      (∀ kv ∈ meta, (kv : String × String).2.length ≤ 256) →
      add_tracking_event s actor pid ty loc dh note meta now =
        some (.ok (s.eventSeq + 1,
          addCommit s actor pid ty loc dh note meta now))) ∧
    (∀ ty loc dh note meta now, meta.length > 20 →
      add_tracking_event s actor pid ty loc dh note meta now =
        some (.error .TooManyCustomFields)) ∧
    (∀ ty loc dh note meta now, meta.length ≤ 20 →
      (∃ kv ∈ meta, (kv : String × String).2.length > 256) →
      add_tracking_event s actor pid ty loc dh note meta now =
        some (.error .CustomFieldValueTooLong)) := by
  have hactf : ¬ p.active = false := by simp [hact]
  have hauthf : ¬ (p.owner ≠ actor ∧ is_authorized s pid actor = false) := by
    rcases hauth with h | h <;> simp [h]
  refine ⟨?_, ?_, ?_⟩
  · intro ty loc dh note meta now hlen hvals
    unfold add_tracking_event
    rw [hp]
    dsimp only
    rw [if_neg hactf, if_neg hauthf, if_neg (by omega),
      if_neg (by
        simp [List.any_eq_true, max_len]
        exact fun a b hab => hvals (a, b) hab),
      if_pos hseq]
  · intro ty loc dh note meta now hlen
    unfold add_tracking_event
    rw [hp]
    dsimp only
    rw [if_neg hactf, if_neg hauthf, if_pos hlen]
  · intro ty loc dh note meta now hlen hbad
    unfold add_tracking_event
    rw [hp]
    dsimp only
    rw [if_neg hactf, if_neg hauthf, if_neg (by omega),
      if_pos (by
        simp [List.any_eq_true, max_len]
        obtain ⟨⟨a, b⟩, hin, hgt⟩ := hbad
        exact ⟨a, b, hin, hgt⟩)]

/-- Witness for C10: on the concrete ledger the owner appends an event
with empty `event_type`, `location` and `note` and it succeeds. -/
theorem c10_only_metadata_validated_witness :
    add_tracking_event wReg 7 "P1" "" "" 0 "" [] 6 =
      some (.ok (1, addCommit wReg 7 "P1" "" "" 0 "" [] 6)) := by
  have hp : wReg.products "P1" = some wProd := by rfl
  have H := c10_only_metadata_validated hp (by rfl) (Or.inl (by rfl)) (by decide)
  exact H.1 "" "" 0 "" [] 6 (by decide) (by simp)

/-- The code's per-event filter check agrees with the spec's sentinel
contract, for any filter whose `end_time` fits in `u64`. -/
lemma filter_matches_iff (f : EventFilter) (ev : TrackingEvent)
    (hend : f.end_time ≤ u64MAX) :
    filter_matches f ev = true ↔ specFilterSatisfies f ev := by
  unfold filter_matches specFilterSatisfies
  dsimp only
  split_ifs <;> simp_all <;> omega

/-- **C8.** `get_filtered_events` selects exactly the product's events
satisfying every active filter dimension; a dimension at its sentinel
(empty `event_type`, empty `location`, `start_time = 0`,
`end_time = u64::MAX`) excludes no event.  The selected id list equals
the filter of the product's event-id list by the spec predicate, and the
returned `total_count` is its length. -/
theorem c8_filter_selects_exactly {s : CState} {pid : String} {p : Product}
    {f : EventFilter}
    (hp : s.products pid = some p) (hend : f.end_time ≤ u64MAX) :
    get_filtered_matching_ids s pid f = (s.productEventIds pid).filter
      (fun eid => match s.events eid with
        | some ev => decide (specFilterSatisfies f ev)
        | none => false) ∧
    (∀ offset limit page,
      get_filtered_events s pid f offset limit = some (.ok page) →
      page.total_count = ((s.productEventIds pid).filter
        (fun eid => match s.events eid with
          | some ev => decide (specFilterSatisfies f ev)
          | none => false)).length) := by
  have hpred : (fun eid => match s.events eid with
      | some ev => filter_matches f ev
      | none => false) = (fun eid => match s.events eid with
      | some ev => decide (specFilterSatisfies f ev)
      | none => false) := by
    funext eid
    cases s.events eid with
    | none => rfl
    | some ev =>
      show filter_matches f ev = decide (specFilterSatisfies f ev)
      rcases hb : filter_matches f ev with - | -
      · have : ¬ specFilterSatisfies f ev := by
          rw [← filter_matches_iff f ev hend, hb]; simp
        simp [this]
      · have : specFilterSatisfies f ev := by
          rw [← filter_matches_iff f ev hend, hb]
        simp [this]
  have h1 : get_filtered_matching_ids s pid f = (s.productEventIds pid).filter
      (fun eid => match s.events eid with
        | some ev => decide (specFilterSatisfies f ev)
        | none => false) := by
    unfold get_filtered_matching_ids
    rw [hpred]
  refine ⟨h1, ?_⟩
  intro offset limit page h
  unfold get_filtered_events at h
  rw [hp] at h
  dsimp only at h
  split_ifs at h with hg1 hg2
  · simp only [Option.some.injEq, Except.ok.injEq] at h
    rw [← h]
    dsimp only
    rw [h1]

/-- Witness for C8: on the concrete two-event ledger, filtering by type
`"HARVEST"` with all other dimensions at their sentinels selects exactly
the spec-filtered id list. -/
theorem c8_filter_selects_exactly_witness :
    wAdd1.products "P1" = some wProd ∧
    get_filtered_matching_ids wAdd1 "P1" ⟨"HARVEST", 0, u64MAX, ""⟩ =
      (wAdd1.productEventIds "P1").filter
        (fun eid => match wAdd1.events eid with
          | some ev => decide (specFilterSatisfies ⟨"HARVEST", 0, u64MAX, ""⟩ ev)
          | none => false) := by
  have hp : wAdd1.products "P1" = some wProd := by rfl
  exact ⟨hp, (c8_filter_selects_exactly hp (by decide)).1⟩

/-! ## Cross-structure storage invariants

The consistency facts §1 demands between the record store, the per-product
event-id lists, the event store and the by-type index, maintained by every
operation. -/

structure WF (s : CState) : Prop where
  mem_events : ∀ pid eid, eid ∈ s.productEventIds pid →
    ∃ ev, s.events eid = some ev ∧ ev.product_id = pid
  events_mem : ∀ eid ev, s.events eid = some ev →
    eid ∈ s.productEventIds ev.product_id
  mem_le_seq : ∀ pid eid, eid ∈ s.productEventIds pid →
    1 ≤ eid ∧ eid ≤ s.eventSeq
  events_le_seq : ∀ eid ev, s.events eid = some ev → eid ≤ s.eventSeq
  nodup : ∀ pid, (s.productEventIds pid).Nodup
  unreg_empty : ∀ pid, s.products pid = none → s.productEventIds pid = []
  count_eq : ∀ pid ty, s.typeCount (pid, ty) = countByType s pid ty
  index_none : ∀ pid ty r, s.typeCount (pid, ty) < r →
    s.typeIndex (pid, ty, r) = none
  index_some : ∀ pid ty r, 1 ≤ r → r ≤ s.typeCount (pid, ty) →
    ∃ eid ev, s.typeIndex (pid, ty, r) = some eid ∧ s.events eid = some ev ∧
      eid ≤ s.eventSeq ∧ ev.product_id = pid ∧ ev.event_type = ty

lemma WF_initState : WF initState := by
  constructor <;> simp [initState, countByType] <;> omega

lemma WF_register {s : CState} {owner : Nat}
    {id name description origin_location category : String}
    {tags : List String} {certifications media_hashes : List Nat}
    {custom : List (String × String)} {now : Nat} {p : Product} {s' : CState}
    (hwf : WF s)
    (h : register_product s owner id name description origin_location
      category tags certifications media_hashes custom now = .ok (p, s')) :
    WF s' := by
  obtain ⟨-, hnone, -, hs'⟩ := register_product_ok h
  have hids : setFn s.productEventIds id [] = s.productEventIds := by
    funext x
    by_cases hx : x = id
    · subst hx
      rw [setFn_same, hwf.unreg_empty x hnone]
    · rw [setFn_other _ _ hx]
  subst hs'
  constructor
  · intro pid eid
    dsimp only
    rw [hids]
    exact hwf.mem_events pid eid
  · intro eid ev hev
    dsimp only at hev ⊢
    rw [hids]
    exact hwf.events_mem eid ev hev
  · intro pid eid
    dsimp only
    rw [hids]
    exact hwf.mem_le_seq pid eid
  · exact hwf.events_le_seq
  · intro pid
    dsimp only
    rw [hids]
    exact hwf.nodup pid
  · intro pid hpid
    dsimp only at hpid ⊢
    rw [hids]
    by_cases hx : pid = id
    · subst hx
      rw [setFn_same] at hpid
      simp at hpid
    · rw [setFn_other _ _ hx] at hpid
      exact hwf.unreg_empty pid hpid
  · intro pid ty
    dsimp only
    have : countByType { s with
        products := setFn s.products id (some p)
        productEventIds := setFn s.productEventIds id []
        auth := setFn s.auth (id, owner) true } pid ty = countByType s pid ty := by
      unfold countByType typePred
      dsimp only
      rw [hids]
    rw [this]
    exact hwf.count_eq pid ty
  · exact hwf.index_none
  · intro pid ty r h1 h2
    obtain ⟨eid, ev, h3, h4, h5, h6, h7⟩ := hwf.index_some pid ty r h1 h2
    exact ⟨eid, ev, h3, h4, h5, h6, h7⟩

lemma triple_ne_of_pair_ne {a b c d : String} {r q : Nat}
    (h : (a, c) ≠ (b, d)) : (a, c, r) ≠ (b, d, q) := by
  intro hcon
  apply h
  rw [Prod.mk.injEq] at hcon
  obtain ⟨h1, h2⟩ := hcon
  rw [Prod.mk.injEq] at h2
  rw [Prod.mk.injEq]
  exact ⟨h1, h2.1⟩

lemma triple_ne_of_rank_ne {a b c d : String} {r q : Nat}
    (h : r ≠ q) : (a, c, r) ≠ (b, d, q) := by
  intro hcon
  rw [Prod.mk.injEq] at hcon
  obtain ⟨-, h2⟩ := hcon
  rw [Prod.mk.injEq] at h2
  exact h h2.2

lemma WF_addCommit {s : CState} {actor : Nat} {pid ty loc : String}
    {dh : Nat} {note : String} {meta : List (String × String)} {now : Nat}
    (hwf : WF s) (hp : (s.products pid).isSome = true) :
    WF (addCommit s actor pid ty loc dh note meta now) := by
  have hne : ∀ pid' x, x ∈ s.productEventIds pid' → x ≠ s.eventSeq + 1 := by
    intro pid' x hx
    have := (hwf.mem_le_seq pid' x hx).2
    omega
  have hevn : s.events (s.eventSeq + 1) = none := by
    cases he : s.events (s.eventSeq + 1) with
    | none => rfl
    | some ev0 =>
      have := hwf.events_le_seq _ _ he
      omega
  have hpredEq : ∀ pid' ty' x, x ≠ s.eventSeq + 1 →
      typePred (addCommit s actor pid ty loc dh note meta now) pid' ty' x =
        typePred s pid' ty' x := by
    intro pid' ty' x hx
    unfold typePred
    simp only [addCommit_events]
    rw [setFn_other _ _ hx]
  constructor
  · intro pid' eid h
    simp only [addCommit_productEventIds, addCommit_events] at h ⊢
    by_cases hx : pid' = pid
    · subst hx
      rw [setFn_same] at h
      rcases List.mem_append.mp h with h | h
      · obtain ⟨ev, he, hid⟩ := hwf.mem_events _ _ h
        refine ⟨ev, ?_, hid⟩
        rw [setFn_other _ _ (hne _ _ h)]
        exact he
      · simp only [List.mem_singleton] at h
        subst h
        exact ⟨_, setFn_same _ _ _, rfl⟩
    · rw [setFn_other _ _ hx] at h
      obtain ⟨ev, he, hid⟩ := hwf.mem_events _ _ h
      refine ⟨ev, ?_, hid⟩
      rw [setFn_other _ _ (hne _ _ h)]
      exact he
  · intro eid ev h
    simp only [addCommit_events, addCommit_productEventIds] at h ⊢
    by_cases hx : eid = s.eventSeq + 1
    · subst hx
      rw [setFn_same] at h
      injection h with h
      subst h
      show s.eventSeq + 1 ∈ setFn s.productEventIds pid
        (s.productEventIds pid ++ [s.eventSeq + 1]) pid
      rw [setFn_same]
      simp
    · rw [setFn_other _ _ hx] at h
      have hm := hwf.events_mem eid ev h
      by_cases hy : ev.product_id = pid
      · rw [hy] at hm ⊢
        rw [setFn_same]
        exact List.mem_append_left _ hm
      · rw [setFn_other _ _ hy]
        exact hm
  · intro pid' eid h
    simp only [addCommit_productEventIds, addCommit_eventSeq] at h ⊢
    by_cases hx : pid' = pid
    · subst hx
      rw [setFn_same] at h
      rcases List.mem_append.mp h with h | h
      · have := hwf.mem_le_seq _ _ h
        omega
      · simp only [List.mem_singleton] at h
        omega
    · rw [setFn_other _ _ hx] at h
      have := hwf.mem_le_seq _ _ h
      omega
  · intro eid ev h
    simp only [addCommit_events, addCommit_eventSeq] at h ⊢
    by_cases hx : eid = s.eventSeq + 1
    · omega
    · rw [setFn_other _ _ hx] at h
      have := hwf.events_le_seq _ _ h
      omega
  · intro pid'
    simp only [addCommit_productEventIds]
    by_cases hx : pid' = pid
    · subst hx
      rw [setFn_same]
      refine List.nodup_append.mpr ⟨hwf.nodup pid', by simp, ?_⟩
      intro a ha hb
      simp only [List.mem_singleton] at hb
      exact (hne _ _ ha) hb
    · rw [setFn_other _ _ hx]
      exact hwf.nodup pid'
  · intro pid' h
    simp only [addCommit_products, addCommit_productEventIds] at h ⊢
    have hx : pid' ≠ pid := by
      intro e
      subst e
      rw [h] at hp
      simp at hp
    rw [setFn_other _ _ hx]
    exact hwf.unreg_empty _ h
  · intro pid' ty'
    simp only [addCommit_typeCount, addCommit_productEventIds]
    have hfilterOld : ∀ q1 q2, (s.productEventIds q1).filter
        (typePred (addCommit s actor pid ty loc dh note meta now) q1 q2) =
        (s.productEventIds q1).filter (typePred s q1 q2) := by
      intro q1 q2
      refine List.filter_congr ?_
      intro x hx
      exact hpredEq q1 q2 x (hne _ _ hx)
    by_cases hx : pid' = pid
    · subst hx
      unfold countByType
      simp only [addCommit_productEventIds]
      rw [setFn_same, List.filter_append, hfilterOld]
      have hpn : typePred (addCommit s actor pid' ty loc dh note meta now)
          pid' ty' (s.eventSeq + 1) = (ty == ty') := by
        unfold typePred
        simp only [addCommit_events]
        rw [setFn_same]
        simp
      by_cases hy : ty' = ty
      · subst hy
        rw [setFn_same, hwf.count_eq]
        unfold countByType
        simp [hpn]
      · rw [setFn_other _ _ (by simp [hy]), hwf.count_eq]
        unfold countByType
        have hbeq : (ty == ty') = false := by
          simp
          exact fun hcon => hy hcon.symm
        simp [hpn, hbeq]
    · unfold countByType
      simp only [addCommit_productEventIds]
      rw [setFn_other _ _ hx, hfilterOld,
        setFn_other _ _ (by simp [hx]), hwf.count_eq]
      rfl
  · intro pid' ty' r h
    simp only [addCommit_typeCount, addCommit_typeIndex] at h ⊢
    by_cases hk : (pid', ty') = (pid, ty)
    · rw [Prod.mk.injEq] at hk
      obtain ⟨hk1, hk2⟩ := hk
      subst hk1
      subst hk2
      rw [setFn_same] at h
      rw [setFn_other _ _ (triple_ne_of_rank_ne (by omega))]
      exact hwf.index_none _ _ _ (by omega)
    · rw [setFn_other _ _ hk] at h
      rw [setFn_other _ _ (triple_ne_of_pair_ne hk)]
      exact hwf.index_none _ _ _ h
  · intro pid' ty' r h1 h2
    simp only [addCommit_typeCount, addCommit_typeIndex, addCommit_events,
      addCommit_eventSeq] at h2 ⊢
    by_cases hk : (pid', ty') = (pid, ty)
    · rw [Prod.mk.injEq] at hk
      obtain ⟨hk1, hk2⟩ := hk
      subst hk1
      subst hk2
      rw [setFn_same] at h2
      by_cases hr : r = s.typeCount (pid', ty') + 1
      · subst hr
        refine ⟨s.eventSeq + 1, _, ?_, setFn_same _ _ _, le_refl _, rfl, rfl⟩
        rw [setFn_same]
      · obtain ⟨eid, ev, i1, i2, i3, i4, i5⟩ :=
          hwf.index_some pid' ty' r h1 (by omega)
        refine ⟨eid, ev, ?_, ?_, by omega, i4, i5⟩
        · rw [setFn_other _ _ (triple_ne_of_rank_ne hr)]
          exact i1
        · rw [setFn_other _ _ (by omega)]
          exact i2
    · rw [setFn_other _ _ hk] at h2
      obtain ⟨eid, ev, i1, i2, i3, i4, i5⟩ := hwf.index_some pid' ty' r h1 h2
      refine ⟨eid, ev, ?_, ?_, by omega, i4, i5⟩
      · rw [setFn_other _ _ (triple_ne_of_pair_ne hk)]
        exact i1
      · rw [setFn_other _ _ (by omega)]
        exact i2

/-- The invariants depend only on record *existence*, the event-id lists,
the event store, the counter and the index — not on record contents or
`Auth` edges. -/
lemma WF_of_same_core {s s' : CState} (hwf : WF s)
    (hprod : ∀ pid, (s'.products pid).isSome = (s.products pid).isSome)
    (hids : s'.productEventIds = s.productEventIds)
    (hev : s'.events = s.events)
    (hseq : s'.eventSeq = s.eventSeq)
    (htc : s'.typeCount = s.typeCount)
    (hti : s'.typeIndex = s.typeIndex) : WF s' := by
  have hcount : ∀ pid ty, countByType s' pid ty = countByType s pid ty := by
    intro pid ty
    unfold countByType typePred
    rw [hids, hev]
  constructor
  · intro pid eid h
    rw [hids] at h
    rw [hev]
    exact hwf.mem_events pid eid h
  · intro eid ev h
    rw [hev] at h
    rw [hids]
    exact hwf.events_mem eid ev h
  · intro pid eid h
    rw [hids] at h
    rw [hseq]
    exact hwf.mem_le_seq pid eid h
  · intro eid ev h
    rw [hev] at h
    rw [hseq]
    exact hwf.events_le_seq eid ev h
  · intro pid
    rw [hids]
    exact hwf.nodup pid
  · intro pid h
    have h' : s.products pid = none := by
      have := hprod pid
      rw [h] at this
      cases hc : s.products pid
      · rfl
      · rw [hc] at this
        simp at this
    rw [hids]
    exact hwf.unreg_empty pid h'
  · intro pid ty
    rw [htc, hcount]
    exact hwf.count_eq pid ty
  · intro pid ty r h
    rw [htc] at h
    rw [hti]
    exact hwf.index_none pid ty r h
  · intro pid ty r h1 h2
    rw [htc] at h2
    obtain ⟨eid, ev, i1, i2, i3, i4, i5⟩ := hwf.index_some pid ty r h1 h2
    rw [hti, hev, hseq]
    exact ⟨eid, ev, i1, i2, i3, i4, i5⟩

lemma WF_writeBatchPass {owner now : Nat} :
    ∀ (inputs : List RegisterInput) (s : CState) (ps : List Product)
      (s' : CState), WF s → writeBatchPass owner now s inputs = .ok (ps, s') →
      WF s' := by
  intro inputs
  induction inputs with
  | nil =>
    intro s ps s' hwf h
    simp only [writeBatchPass] at h
    simp only [Except.ok.injEq, Prod.mk.injEq] at h
    rw [← h.2]
    exact hwf
  | cons inp rest ih =>
    intro s ps s' hwf h
    simp only [writeBatchPass] at h
    split at h
    · simp at h
    · next p s1 hreg =>
      split at h
      · simp at h
      · next ps2 s2 hrest =>
        simp only [Except.ok.injEq, Prod.mk.injEq] at h
        rw [← h.2]
        exact ih s1 ps2 s2 (WF_register hwf hreg) hrest

/-- Every invocation preserves the storage invariants. -/
lemma WF_applyOp (op : Op) {s : CState} (hwf : WF s) : WF (applyOp op s) := by
  cases op with
  | register owner id name description origin_location category tags
      certifications media_hashes custom now =>
    simp only [applyOp]
    split
    · next p s' h => exact WF_register hwf h
    · exact hwf
  | addEvent actor pid ty loc dh note meta now =>
    simp only [applyOp]
    split
    · next n s' h =>
      obtain ⟨-, hs', ⟨p, hp, -, -⟩, -, -⟩ := add_tracking_event_ok h
      rw [hs']
      exact WF_addCommit hwf (by rw [hp]; rfl)
    · exact hwf
  | addAuth owner pid actor =>
    simp only [applyOp]
    split
    · next s' h =>
      unfold add_authorized_actor at h
      split at h
      · simp at h
      · split_ifs at h with h1
        all_goals first
        | (simp at h; done)
        | (simp only [Except.ok.injEq, Prod.mk.injEq] at h
           rw [← h.2]
           exact WF_of_same_core hwf (fun _ => rfl) rfl rfl rfl rfl rfl)
    · exact hwf
  | removeAuth owner pid actor =>
    simp only [applyOp]
    split
    · next s' h =>
      unfold remove_authorized_actor at h
      split at h
      · simp at h
      · split_ifs at h with h1
        all_goals first
        | (simp at h; done)
        | (simp only [Except.ok.injEq, Prod.mk.injEq] at h
           rw [← h.2]
           exact WF_of_same_core hwf (fun _ => rfl) rfl rfl rfl rfl rfl)
    · exact hwf
  | transfer owner pid new_owner =>
    simp only [applyOp]
    split
    · next s' h =>
      obtain ⟨p, hp, -, hs'⟩ := transfer_product_ok h
      rw [hs']
      refine WF_of_same_core hwf ?_ rfl rfl rfl rfl rfl
      intro pid'
      by_cases hx : pid' = pid
      · subst hx
        show (setFn s.products pid' _ pid').isSome = _
        rw [setFn_same, hp]
        rfl
      · show (setFn s.products pid _ pid').isSome = _
        rw [setFn_other _ _ hx]
    · exact hwf
  | setActive owner pid active =>
    simp only [applyOp]
    split
    · next s' h =>
      obtain ⟨p, hp, -, hs'⟩ := set_product_active_ok h
      rw [hs']
      refine WF_of_same_core hwf ?_ rfl rfl rfl rfl rfl
      intro pid'
      by_cases hx : pid' = pid
      · subst hx
        show (setFn s.products pid' _ pid').isSome = _
        rw [setFn_same, hp]
        rfl
      · show (setFn s.products pid _ pid').isSome = _
        rw [setFn_other _ _ hx]
    · exact hwf
  | regBatch owner inputs now =>
    simp only [applyOp]
    unfold register_batch_state
    split
    · next ps s' h =>
      unfold register_batch at h
      split_ifs at h with h1 h2
      all_goals first
      | (simp at h; done)
      | (split at h
         · simp at h
         · exact WF_writeBatchPass inputs s ps s' hwf h)
    · exact hwf

lemma WF_execOps (ops : List Op) {s : CState} (hwf : WF s) :
    WF (execOps ops s) := by
  induction ops generalizing s with
  | nil => exact hwf
  | cons op rest ih => exact ih (WF_applyOp op hwf)

/-- Every reachable storage state satisfies the invariants. -/
lemma WF_reachable {s : CState} (h : Reachable s) : WF s := by
  obtain ⟨ops, rfl⟩ := h
  exact WF_execOps ops WF_initState

lemma writeBatchPass_typeIndex {owner now : Nat} :
    ∀ (inputs : List RegisterInput) (s : CState) (ps : List Product)
      (s' : CState), writeBatchPass owner now s inputs = .ok (ps, s') →
      s'.typeIndex = s.typeIndex := by
  intro inputs
  induction inputs with
  | nil =>
    intro s ps s' h
    simp only [writeBatchPass] at h
    simp only [Except.ok.injEq, Prod.mk.injEq] at h
    rw [← h.2]
  | cons inp rest ih =>
    intro s ps s' h
    simp only [writeBatchPass] at h
    split at h
    · simp at h
    · next p s1 hreg =>
      split at h
      · simp at h
      · next ps2 s2 hrest =>
        simp only [Except.ok.injEq, Prod.mk.injEq] at h
        rw [← h.2, ih s1 ps2 s2 hrest, (register_product_ok hreg).2.2.2]

/-- No invocation ever changes an already-assigned by-type index rank. -/
lemma typeIndex_stable (op : Op) {s : CState} (hwf : WF s)
    {pid ty : String} {r e : Nat}
    (h : s.typeIndex (pid, ty, r) = some e) :
    (applyOp op s).typeIndex (pid, ty, r) = some e := by
  cases op with
  | register owner id name description origin_location category tags
      certifications media_hashes custom now =>
    simp only [applyOp]
    split
    · next p s' hr => rw [(register_product_ok hr).2.2.2]; exact h
    · exact h
  | addEvent actor pid0 ty0 loc dh note meta now =>
    simp only [applyOp]
    split
    · next n s' ha =>
      obtain ⟨-, hs', -, -, -⟩ := add_tracking_event_ok ha
      rw [hs', addCommit_typeIndex]
      by_cases hk : (pid, ty, r) = (pid0, ty0, s.typeCount (pid0, ty0) + 1)
      · rw [hk] at h
        rw [hwf.index_none pid0 ty0 _ (by omega)] at h
        simp at h
      · rw [setFn_other _ _ hk]
        exact h
    · exact h
  | addAuth owner pid0 actor =>
    simp only [applyOp]
    split
    · next s' ha =>
      unfold add_authorized_actor at ha
      split at ha
      · simp at ha
      · split_ifs at ha with h1
        all_goals first
        | (simp at ha; done)
        | (simp only [Except.ok.injEq, Prod.mk.injEq] at ha
           rw [← ha.2]
           exact h)
    · exact h
  | removeAuth owner pid0 actor =>
    simp only [applyOp]
    split
    · next s' ha =>
      unfold remove_authorized_actor at ha
      split at ha
      · simp at ha
      · split_ifs at ha with h1
        all_goals first
        | (simp at ha; done)
        | (simp only [Except.ok.injEq, Prod.mk.injEq] at ha
           rw [← ha.2]
           exact h)
    · exact h
  | transfer owner pid0 new_owner =>
    simp only [applyOp]
    split
    · next s' ht =>
      obtain ⟨p, -, -, hs'⟩ := transfer_product_ok ht
      rw [hs']
      exact h
    · exact h
  | setActive owner pid0 active =>
    simp only [applyOp]
    split
    · next s' ht =>
      obtain ⟨p, -, -, hs'⟩ := set_product_active_ok ht
      rw [hs']
      exact h
    · exact h
  | regBatch owner inputs now =>
    simp only [applyOp]
    unfold register_batch_state
    split
    · next ps s' hb =>
      unfold register_batch at hb
      split_ifs at hb with h1 h2
      all_goals first
      | (simp at hb; done)
      | (split at hb
         · simp at hb
         · rw [writeBatchPass_typeIndex inputs s ps s' hb]; exact h)
    · exact h

/-- **C9.** In every reachable state the stored by-type count returned by
`get_event_count_by_type` equals the number of stored events with that
product and type (the filter of the product's duplicate-free event-id
list by the type predicate, which enumerates exactly the stored events of
that product and type); every successful `add_tracking_event` updates the
index incrementally (count+1, rank `count+1 -> eventId`); and no
invocation changes an already-assigned rank. -/
theorem c9_by_type_index_invariant {s : CState} {pid : String} {p : Product}
    (hs : Reachable s) (hp : s.products pid = some p) (ty : String) :
    get_event_count_by_type s pid ty = .ok (s.typeCount (pid, ty)) ∧
    s.typeCount (pid, ty) = countByType s pid ty ∧
    (s.productEventIds pid).Nodup ∧
    (∀ eid, (∃ ev, s.events eid = some ev ∧ ev.product_id = pid ∧
        ev.event_type = ty) ↔
      eid ∈ (s.productEventIds pid).filter (typePred s pid ty)) ∧
    (∀ actor loc dh note meta now n s',
      add_tracking_event s actor pid ty loc dh note meta now =
        some (.ok (n, s')) →
      s'.typeCount (pid, ty) = s.typeCount (pid, ty) + 1 ∧
      s'.typeIndex (pid, ty, s.typeCount (pid, ty) + 1) = some n) ∧
    (∀ op r e, s.typeIndex (pid, ty, r) = some e →
      (applyOp op s).typeIndex (pid, ty, r) = some e) := by
  have hwf := WF_reachable hs
  refine ⟨?_, hwf.count_eq pid ty, hwf.nodup pid, ?_, ?_, ?_⟩
  · unfold get_event_count_by_type
    rw [hp]
  · intro eid
    constructor
    · rintro ⟨ev, hev, hevp, hevt⟩
      rw [List.mem_filter]
      refine ⟨?_, ?_⟩
      · have := hwf.events_mem eid ev hev
        rw [hevp] at this
        exact this
      · unfold typePred
        rw [hev]
        simp [hevp, hevt]
    · intro h
      rw [List.mem_filter] at h
      obtain ⟨-, h2⟩ := h
      unfold typePred at h2
      cases hev : s.events eid with
      | none => rw [hev] at h2; simp at h2
      | some ev =>
        rw [hev] at h2
        simp only [Bool.and_eq_true, beq_iff_eq] at h2
        exact ⟨ev, rfl, h2.1, h2.2⟩
  · intro actor loc dh note meta now n s' ha
    obtain ⟨hn, hs', -, -, -⟩ := add_tracking_event_ok ha
    subst hn
    rw [hs', addCommit_typeCount, addCommit_typeIndex]
    exact ⟨setFn_same _ _ _, setFn_same _ _ _⟩
  · intro op r e h
    exact typeIndex_stable op hwf h

/-- Witness for C9: on the concrete two-event ledger (reachable by a
register followed by an append), the stored `"HARVEST"` count for `"P1"`
agrees with the number of stored `"HARVEST"` events. -/
theorem c9_by_type_index_invariant_witness :
    Reachable wAdd1 ∧
    wAdd1.products "P1" = some wProd ∧
    wAdd1.typeCount ("P1", "HARVEST") = countByType wAdd1 "P1" "HARVEST" ∧
    get_event_count_by_type wAdd1 "P1" "HARVEST" = .ok 1 := by
  have hre : Reachable wAdd1 :=
    ⟨[Op.register 7 "P1" "Tea" "desc" "OriginX" "Cat" [] [] [] [] 5,
      Op.addEvent 7 "P1" "HARVEST" "Farm" 0 "n" [] 6], rfl⟩
  have hp : wAdd1.products "P1" = some wProd := by rfl
  have H := c9_by_type_index_invariant hre hp "HARVEST"
  refine ⟨hre, hp, H.2.1, ?_⟩
  rw [H.1]
  rfl

lemma length_take_drop {α : Type} (l : List α) (o k : Nat) :
    ((l.drop o).take k).length = min k (l.length - o) := by
  simp [List.length_take, List.length_drop]

lemma mem_take_drop {α : Type} {l : List α} {o k : Nat} {x : α}
    (h : x ∈ (l.drop o).take k) : x ∈ l :=
  List.mem_of_mem_drop (List.mem_of_mem_take h)

lemma filter_events_isSome {s : CState} {l : List Nat}
    {g : TrackingEvent → Bool} :
    ∀ x ∈ l.filter (fun eid => match s.events eid with
      | some ev => g ev
      | none => false), (s.events x).isSome = true := by
  intro x hx
  rw [List.mem_filter] at hx
  obtain ⟨-, h2⟩ := hx
  cases hev : s.events x with
  | none => rw [hev] at h2; simp at h2
  | some ev => rfl

lemma two32_le_u64MAX : 2 ^ 32 ≤ u64MAX := by decide

/-- The page of a `u32`-truncating slice over a list of ids that all
have stored events. -/
lemma slice_filterMap_length {s : CState} {l : List Nat}
    (hall : ∀ x ∈ l, (s.events x).isSome = true) (start stop : Nat) :
    (((l.drop start).take (stop - start)).filterMap s.events).length =
      min (stop - start) (l.length - start) := by
  rw [length_filterMap_all (fun x hx => hall x (mem_take_drop hx)),
    List.length_take, List.length_drop]

/-- **C4 (counterexample).** The claim's pagination formula fails at
`offset = 2^32`: `get_events_by_time_range` truncates `offset` to `u32`
(contract.rs line 378), so on a one-event product with
`offset = 2^32, limit = 10` the page holds 1 item where the claim's
`max(0, min(limit, N - offset))` demands 0. -/
theorem c4_counterexample :
    get_events_by_time_range wAdd1 "P1" 0 u64MAX (2 ^ 32) 10 =
      some (.ok { events := [{ event_id := 1, product_id := "P1", actor := 7
                               timestamp := 6, event_type := "HARVEST"
                               location := "Farm", data_hash := 0, note := "n"
                               metadata := [] }]
                  total_count := 1, has_more := false }) ∧
    max 0 (min 10 ((1 : Int) - 2 ^ 32)) = 0 ∧ (1 : Int) ≠ 0 := by
  exact ⟨by rfl, by decide, by decide⟩

/-- **C4 (amended).** For every reachable state, existing product and
`offset, limit` with `offset + limit < 2^32` (so that the `u32` casts in
the time-range/filtered scans are lossless), each of the four paginated
reads returns — never an error — a page with exactly
`min(limit, N - offset)` items (`N` the matching population, truncated
subtraction), `total_count = N`, and
`has_more = (offset + items.length < N)`; in particular `offset ≥ N`
yields an empty page with `has_more = false`. -/
theorem c4_pagination_contract {s : CState} {pid : String} {p : Product}
    {offset limit : Nat}
    (hs : Reachable s) (hp : s.products pid = some p)
    (hol : offset + limit < 2 ^ 32) :
    (∃ page, get_product_events s pid offset limit = some (.ok page) ∧
      page.events.length = min limit ((s.productEventIds pid).length - offset) ∧
      page.total_count = (s.productEventIds pid).length ∧
      page.has_more = decide (offset + page.events.length < page.total_count)) ∧
    (∀ ty, ∃ page, get_events_by_type s pid ty offset limit = some (.ok page) ∧
      page.events.length = min limit (s.typeCount (pid, ty) - offset) ∧
      page.total_count = s.typeCount (pid, ty) ∧
      page.has_more = decide (offset + page.events.length < page.total_count)) ∧
    (∀ start_time end_time, ∃ page,
      get_events_by_time_range s pid start_time end_time offset limit =
        some (.ok page) ∧
      page.events.length =
        min limit ((time_matching_ids s pid start_time end_time).length - offset) ∧
      page.total_count = (time_matching_ids s pid start_time end_time).length ∧
      page.has_more = decide (offset + page.events.length < page.total_count)) ∧
    (∀ f, ∃ page, get_filtered_events s pid f offset limit = some (.ok page) ∧
      page.events.length =
        min limit ((get_filtered_matching_ids s pid f).length - offset) ∧
      page.total_count = (get_filtered_matching_ids s pid f).length ∧
      page.has_more = decide (offset + page.events.length < page.total_count)) := by
  have hwf := WF_reachable hs
  have h32 := two32_le_u64MAX
  have hoff : offset % 2 ^ 32 = offset := Nat.mod_eq_of_lt (by omega)
  have hol2 : (offset + limit) % 2 ^ 32 = offset + limit :=
    Nat.mod_eq_of_lt (by omega)
  refine ⟨?_, ?_, ?_, ?_⟩
  · -- get_product_events
    have hall : ∀ x ∈ get_product_event_ids_paginated s pid offset limit,
        (s.events x).isSome = true := by
      intro x hx
      obtain ⟨ev, hev, -⟩ := hwf.mem_events pid x (mem_take_drop hx)
      rw [hev]
      rfl
    have hlen : (get_product_event_ids_paginated s pid offset limit).length =
        min limit ((s.productEventIds pid).length - offset) :=
      length_take_drop _ _ _
    have hflen : ((get_product_event_ids_paginated s pid offset limit).filterMap
        s.events).length = min limit ((s.productEventIds pid).length - offset) := by
      rw [length_filterMap_all hall, hlen]
    unfold get_product_events
    rw [hp]
    dsimp only
    rw [if_pos (by rw [hlen]; unfold u64MAX; omega)]
    exact ⟨_, rfl, hflen, rfl, by rw [hflen, hlen]⟩
  · -- get_events_by_type
    intro ty
    have hrank : ∀ r ∈ List.range' (offset + 1)
        (min (offset + limit) (s.typeCount (pid, ty)) - offset),
        ∃ eid ev, s.typeIndex (pid, ty, r) = some eid ∧
          s.events eid = some ev ∧ eid ≤ s.eventSeq ∧
          ev.product_id = pid ∧ ev.event_type = ty := by
      intro r hr
      rw [List.mem_range'] at hr
      exact hwf.index_some pid ty r (by omega) (by omega)
    have hallr : ∀ r ∈ List.range' (offset + 1)
        (min (offset + limit) (s.typeCount (pid, ty)) - offset),
        (s.typeIndex (pid, ty, r)).isSome = true := by
      intro r hr
      obtain ⟨eid, ev, i1, -⟩ := hrank r hr
      rw [i1]
      rfl
    have hidlen : (get_event_ids_by_type s pid ty offset limit).length =
        min (offset + limit) (s.typeCount (pid, ty)) - offset := by
      unfold get_event_ids_by_type
      rw [length_filterMap_all hallr, List.length_range']
    have hmem : ∀ x ∈ get_event_ids_by_type s pid ty offset limit,
        (s.events x).isSome = true := by
      intro x hx
      unfold get_event_ids_by_type at hx
      obtain ⟨r, hr, hsome⟩ := List.mem_filterMap.mp hx
      obtain ⟨eid, ev, i1, i2, -⟩ := hrank r hr
      rw [i1] at hsome
      injection hsome with hsome
      subst hsome
      rw [i2]
      rfl
    have hflen : ((get_event_ids_by_type s pid ty offset limit).filterMap
        s.events).length = min limit (s.typeCount (pid, ty) - offset) := by
      rw [length_filterMap_all hmem, hidlen]
      omega
    unfold get_events_by_type
    rw [hp]
    dsimp only
    rw [if_pos (by rw [hidlen]; unfold u64MAX; omega)]
    refine ⟨_, rfl, hflen, rfl, ?_⟩
    dsimp only
    have harg : offset + ((offset + limit) ⊓ s.typeCount (pid, ty) - offset) =
        offset + limit ⊓ (s.typeCount (pid, ty) - offset) := by omega
    rw [hflen, hidlen, harg]
  · -- get_events_by_time_range
    intro start_time end_time
    have hall : ∀ x ∈ time_matching_ids s pid start_time end_time,
        (s.events x).isSome = true := by
      unfold time_matching_ids
      exact filter_events_isSome
    have hslice := slice_filterMap_length hall (u32cast offset)
      (min (u32cast (offset + limit))
        (time_matching_ids s pid start_time end_time).length)
    unfold get_events_by_time_range
    rw [hp]
    dsimp only
    rw [if_pos (by unfold u64MAX; omega)]
    rw [u32cast, u32cast, hoff, hol2] at hslice ⊢
    have hflen : (((( time_matching_ids s pid start_time end_time).drop offset).take
        (min (offset + limit) (time_matching_ids s pid start_time end_time).length
          - offset)).filterMap s.events).length =
        min limit ((time_matching_ids s pid start_time end_time).length - offset) := by
      rw [hslice]
      omega
    rw [if_pos (by rw [hflen]; unfold u64MAX; omega)]
    exact ⟨_, rfl, hflen, rfl, by rw [hflen]⟩
  · -- get_filtered_events
    intro f
    have hall : ∀ x ∈ get_filtered_matching_ids s pid f,
        (s.events x).isSome = true := by
      unfold get_filtered_matching_ids
      exact filter_events_isSome
    have hslice := slice_filterMap_length hall (u32cast offset)
      (min (u32cast (offset + limit)) (get_filtered_matching_ids s pid f).length)
    unfold get_filtered_events
    rw [hp]
    dsimp only
    rw [if_pos (by unfold u64MAX; omega)]
    rw [u32cast, u32cast, hoff, hol2] at hslice ⊢
    have hflen : ((((get_filtered_matching_ids s pid f).drop offset).take
        (min (offset + limit) (get_filtered_matching_ids s pid f).length
          - offset)).filterMap s.events).length =
        min limit ((get_filtered_matching_ids s pid f).length - offset) := by
      rw [hslice]
      omega
    rw [if_pos (by rw [hflen]; unfold u64MAX; omega)]
    exact ⟨_, rfl, hflen, rfl, by rw [hflen]⟩

/-- Witness for C4 (amended): on the reachable two-event ledger, page
`offset 0, limit 5` of the product's events holds the single event with
`total_count = 1` and `has_more = false`. -/
theorem c4_pagination_contract_witness :
    Reachable wAdd1 ∧ wAdd1.products "P1" = some wProd ∧ 0 + 5 < 2 ^ 32 ∧
    (∃ page, get_product_events wAdd1 "P1" 0 5 = some (.ok page) ∧
      page.events.length = min 5 ((wAdd1.productEventIds "P1").length - 0) ∧
      page.total_count = (wAdd1.productEventIds "P1").length ∧
      page.has_more = decide (0 + page.events.length < page.total_count)) := by
  have hre : Reachable wAdd1 :=
    ⟨[Op.register 7 "P1" "Tea" "desc" "OriginX" "Cat" [] [] [] [] 5,
      Op.addEvent 7 "P1" "HARVEST" "Farm" 0 "n" [] 6], rfl⟩
  have hp : wAdd1.products "P1" = some wProd := by rfl
  exact ⟨hre, hp, by decide,
    (c4_pagination_contract hre hp (by decide)).1⟩

/-- The validation pass rejects a batch whose first offending input fails
field validation, provided the earlier inputs pass all three per-input
checks. -/
lemma validateBatchPass_finds_bad {s : CState} {bad : RegisterInput}
    {e : Error} (post : List RegisterInput)
    (hbad : inputValidate bad = some e) :
    ∀ (pre : List RegisterInput) (seen : List String),
      (∀ inp ∈ pre, inputValidate inp = none ∧
        has_product s inp.id = false) →
      (pre.map RegisterInput.id).Nodup →
      (∀ inp ∈ pre, inp.id ∉ seen) →
      validateBatchPass s (pre ++ bad :: post) seen =
        some (.validation e) := by
  intro pre
  induction pre with
  | nil =>
    intro seen _ _ _
    simp only [List.nil_append, validateBatchPass]
    rw [hbad]
  | cons inp pre' ih =>
    intro seen hpre hnodup hseen
    simp only [List.cons_append, validateBatchPass]
    obtain ⟨hv, hhas⟩ := hpre inp (List.mem_cons_self inp pre')
    rw [hv, hhas]
    simp only [Bool.false_eq_true, if_false]
    rw [if_neg (hseen inp (List.mem_cons_self inp pre'))]
    refine ih (inp.id :: seen) (fun i hi => hpre i (List.mem_cons_of_mem _ hi))
      (List.nodup_cons.mp hnodup).2 ?_
    intro i hi hcon
    rcases List.mem_cons.mp hcon with hcon | hcon
    · exact (List.nodup_cons.mp hnodup).1
        (hcon ▸ List.mem_map_of_mem RegisterInput.id hi)
    · exact hseen i (List.mem_cons_of_mem _ hi) hcon

/-- **C3.** (`registerBatch` is not under src/ and is modelled from
§4.7.)  A batch containing one field-invalid input among otherwise valid
ones — the earlier inputs valid, absent from the store and mutually
distinct — aborts with that input's specific validation error, and no
record at all is written: the visible storage afterwards is exactly the
storage before. -/
theorem c3_register_batch_atomicity (owner now : Nat) {s : CState}
    {pre post : List RegisterInput} {bad : RegisterInput} {e : Error}
    (hmax : (pre ++ bad :: post).length ≤ MAX_BATCH_SIZE)
    (hbad : inputValidate bad = some e)
    (hpre : ∀ inp ∈ pre, inputValidate inp = none ∧
      has_product s inp.id = false)
    (hnodup : (pre.map RegisterInput.id).Nodup) :
    register_batch s owner (pre ++ bad :: post) now =
      .error (.validation e) ∧
    register_batch_state s owner (pre ++ bad :: post) now = s := by
  have hpass := validateBatchPass_finds_bad post hbad pre []
    hpre hnodup (by simp)
  have hmain : register_batch s owner (pre ++ bad :: post) now =
      .error (.validation e) := by
    unfold register_batch
    rw [if_neg (by simp), if_neg (by omega), hpass]
  refine ⟨hmain, ?_⟩
  unfold register_batch_state
  rw [hmain]

/-- Witness for C3: a two-input batch over the empty ledger — one valid
registration followed by one with an empty name — returns
`InvalidProductName` and writes nothing (the valid id does not exist
afterwards). -/
theorem c3_register_batch_atomicity_witness :
    register_batch initState 7
      [⟨"G1", "N", "d", "O", "C", [], [], [], []⟩,
       ⟨"B1", "", "d", "O", "C", [], [], [], []⟩] 5 =
      .error (.validation .InvalidProductName) ∧
    has_product (register_batch_state initState 7
      [⟨"G1", "N", "d", "O", "C", [], [], [], []⟩,
       ⟨"B1", "", "d", "O", "C", [], [], [], []⟩] 5) "G1" = false := by
  have hmax : (([⟨"G1", "N", "d", "O", "C", [], [], [], []⟩] :
      List RegisterInput) ++
      (⟨"B1", "", "d", "O", "C", [], [], [], []⟩ : RegisterInput) ::
      []).length ≤ MAX_BATCH_SIZE := by decide
  have hbad : inputValidate ⟨"B1", "", "d", "O", "C", [], [], [], []⟩ =
      some .InvalidProductName := by rfl
  have hpre : ∀ inp ∈ ([⟨"G1", "N", "d", "O", "C", [], [], [], []⟩] :
      List RegisterInput), inputValidate inp = none ∧
      has_product initState inp.id = false := by
    intro inp hinp
    simp only [List.mem_singleton] at hinp
    subst hinp
    exact ⟨rfl, rfl⟩
  have H := c3_register_batch_atomicity 7 5 hmax hbad hpre (by simp)
  refine ⟨H.1, ?_⟩
  have H2 := H.2
  simp only [List.singleton_append] at H2
  rw [H2]
  rfl

end ChainLogistics
